import Mathlib

/-!
# KIChat RAG backend — formal model and verification

Shallow embedding of the retrieval pipeline of the KIChat backend:
text chunking (`app/rag/chunking.py`), embedding prefixes
(`app/rag/embedding.py`), the vector store operations
(`app/rag/vectorstore.py`) and the chat / document routes
(`app/routes/chat.py`, `app/routes/documents.py`).

Python strings are modelled as `List Char` where character-level slicing
matters (the chunker) and as `String` elsewhere; payload dictionaries are
association lists with string keys; similarity scores and vector
components are integers (the claims under study concern ordering and
data flow, not floating-point numerics); fallible or possibly
non-terminating code is modelled with `Option`, a `while` loop by
structural recursion on a fuel argument.
-/

namespace KIChat

/-- Python `str.isspace` on the ASCII whitespace characters stripped by
`str.strip()`. -/
def pyIsSpace (c : Char) : Bool :=
  c = ' ' || c = '\t' || c = '\n' || c = '\r' || c = '\x0b' || c = '\x0c'

/-- Python `str.strip()`: drop whitespace from both ends. -/
def pyStrip (l : List Char) : List Char :=
  ((l.dropWhile pyIsSpace).reverse.dropWhile pyIsSpace).reverse

/-- Python `text.rfind(sep, start, stop)`: the largest index `i` with
`start ≤ i`, `i + sep.length ≤ stop` and `sep` occurring in `text` at `i`;
`none` when there is no such index (Python returns `-1`, which the caller
only compares with `> start`). -/
def pyRfind (text sep : List Char) (start stop : Nat) : Option Nat :=
  ((List.range (stop + 1)).filter
    (fun i => decide (start ≤ i) && decide (i + sep.length ≤ stop)
      && ((text.drop i).take sep.length == sep))).getLast?

/-- The separator priority list of `TextChunker.__init__`. -/
def separators : List (List Char) :=
  ["\n\n\n".data, "\n\n".data, "\n".data,
   ". ".data, "! ".data, "? ".data, "; ".data, ", ".data, " ".data]

/-- Chunker configuration (`rag_chunk_size`, `rag_chunk_overlap`). -/
structure ChunkCfg where
  chunk_size : Nat
  overlap : Nat
deriving Repr, DecidableEq

/-- The separator scan of `TextChunker.chunk`: try the separators in
priority order; the first whose right-most occurrence `split_pos` in the
window satisfies `split_pos > start` gives `best_split = split_pos +
len(sep)`; if none does, `best_split` stays at the raw window end. -/
def findSplit (text : List Char) (start stop : Nat) : List (List Char) → Nat
  | [] => stop
  | sep :: rest =>
    match pyRfind text sep start stop with
    | some split_pos =>
        if start < split_pos then split_pos + sep.length
        else findSplit text start stop rest
    | none => findSplit text start stop rest

/-- The `while start < len(text)` loop of `TextChunker.chunk`, with a fuel
argument: `none` means the fuel was exhausted (the Python loop has not
terminated within `fuel` iterations).  Note `best_split - overlap` in
`Nat` already clamps at 0 exactly like the `if start < 0: start = 0`
in the source. -/
def chunkLoop (cfg : ChunkCfg) (text : List Char) :
    Nat → Nat → List (List Char) → Option (List (List Char))
  | 0, _, _ => none
  | fuel + 1, start, chunks =>
    if start < text.length then
      let stop := start + cfg.chunk_size
      if text.length ≤ stop then
        -- last chunk: `text[start:]`, kept only if non-empty and ≥ 50 chars
        let c := pyStrip (text.drop start)
        some (chunks ++ if ¬c.isEmpty ∧ 50 ≤ c.length then [c] else [])
      else
        let best_split := findSplit text start stop separators
        let c := pyStrip ((text.drop start).take (best_split - start))
        let chunks' := chunks ++ if ¬c.isEmpty ∧ 50 ≤ c.length then [c] else []
        chunkLoop cfg text fuel (best_split - cfg.overlap) chunks'
    else
      some chunks

namespace TextChunker

/-- `TextChunker.chunk` from `app/rag/chunking.py`.  `none` means the
call does not return within `fuel` loop iterations. -/
def chunk (cfg : ChunkCfg) (fuel : Nat) (text : List Char) :
    Option (List (List Char)) :=
  if pyStrip text = [] then some []
  else
    let text := pyStrip text
    if text.length ≤ cfg.chunk_size then some [text]
    else chunkLoop cfg text fuel 0 []

end TextChunker

/-! ### Basic facts about `pyStrip`, `pyRfind` and `findSplit` -/

theorem pyStrip_length_le (l : List Char) : (pyStrip l).length ≤ l.length := by
  unfold pyStrip
  calc ((l.dropWhile pyIsSpace).reverse.dropWhile pyIsSpace).reverse.length
      = ((l.dropWhile pyIsSpace).reverse.dropWhile pyIsSpace).length :=
        List.length_reverse _
    _ ≤ (l.dropWhile pyIsSpace).reverse.length :=
        (List.dropWhile_sublist _).length_le
    _ = (l.dropWhile pyIsSpace).length := List.length_reverse _
    _ ≤ l.length := (List.dropWhile_sublist _).length_le

/-- Stripping returns a contiguous segment of the input. -/
theorem pyStrip_decomp (l : List Char) :
    ∃ pre post, l = pre ++ pyStrip l ++ post := by
  refine ⟨l.takeWhile pyIsSpace,
    ((l.dropWhile pyIsSpace).reverse.takeWhile pyIsSpace).reverse, ?_⟩
  conv_lhs => rw [← List.takeWhile_append_dropWhile pyIsSpace l]
  rw [List.append_assoc]
  congr 1
  conv_lhs => rw [← List.reverse_reverse (l.dropWhile pyIsSpace),
    ← List.takeWhile_append_dropWhile pyIsSpace (l.dropWhile pyIsSpace).reverse,
    List.reverse_append]
  rfl

/-- A slice `text[s : s+k]` is a contiguous segment of the text. -/
theorem slice_decomp (t : List Char) (s k : Nat) :
    ∃ pre post, t = pre ++ (t.drop s).take k ++ post :=
  ⟨t.take s, (t.drop s).drop k, by
    rw [List.append_assoc, List.take_append_drop, List.take_append_drop]⟩

/-- Being a contiguous segment is transitive. -/
theorem segment_trans {t m c : List Char} (h1 : ∃ p q, t = p ++ m ++ q)
    (h2 : ∃ p q, m = p ++ c ++ q) : ∃ p q, t = p ++ c ++ q := by
  obtain ⟨p1, q1, rfl⟩ := h1
  obtain ⟨p2, q2, rfl⟩ := h2
  exact ⟨p1 ++ p2, q2 ++ q1, by simp [List.append_assoc]⟩

theorem mem_of_getLast?_eq {α : Type} {l : List α} {a : α}
    (h : l.getLast? = some a) : a ∈ l := by
  cases l with
  | nil => simp at h
  | cons x xs =>
    rw [List.getLast?_eq_getLast _ (List.cons_ne_nil x xs)] at h
    injection h with h
    exact h ▸ List.getLast_mem _

theorem pyRfind_some {text sep : List Char} {start stop p : Nat}
    (h : pyRfind text sep start stop = some p) :
    start ≤ p ∧ p + sep.length ≤ stop ∧ (text.drop p).take sep.length = sep := by
  have hm := mem_of_getLast?_eq h
  simp only [List.mem_filter, List.mem_range, Bool.and_eq_true,
    decide_eq_true_eq, beq_iff_eq] at hm
  exact ⟨hm.2.1.1, hm.2.1.2, hm.2.2⟩

theorem findSplit_cases (text : List Char) (start stop : Nat) :
    ∀ seps, findSplit text start stop seps = stop ∨
      ∃ sep ∈ seps, ∃ p, pyRfind text sep start stop = some p ∧ start < p ∧
        findSplit text start stop seps = p + sep.length
  | [] => Or.inl rfl
  | sep :: rest => by
    cases hr : pyRfind text sep start stop with
    | none =>
      rcases findSplit_cases text start stop rest with h | ⟨s, hs, p, h1, h2, h3⟩
      · exact Or.inl (by simp only [findSplit, hr]; exact h)
      · exact Or.inr ⟨s, List.mem_cons_of_mem _ hs, p, h1, h2,
          by simp only [findSplit, hr]; exact h3⟩
    | some q =>
      by_cases hq : start < q
      · exact Or.inr ⟨sep, List.mem_cons_self .., q, hr, hq,
          by simp only [findSplit, hr, if_pos hq]⟩
      · rcases findSplit_cases text start stop rest with h | ⟨s, hs, p, h1, h2, h3⟩
        · exact Or.inl (by simp only [findSplit, hr, if_neg hq]; exact h)
        · exact Or.inr ⟨s, List.mem_cons_of_mem _ hs, p, h1, h2,
            by simp only [findSplit, hr, if_neg hq]; exact h3⟩

theorem separators_nonempty : ∀ s ∈ separators, 1 ≤ s.length := by decide

/-- In each loop iteration that does not break, the next window start
strictly advances — provided the overlap is at most 1. -/
theorem next_start_progress (cfg : ChunkCfg) (text : List Char) (start : Nat)
    (hov : cfg.overlap ≤ 1) (hlt : cfg.overlap < cfg.chunk_size) :
    start < findSplit text start (start + cfg.chunk_size) separators - cfg.overlap := by
  rcases findSplit_cases text start (start + cfg.chunk_size) separators with
    hcase | ⟨sep, hsep, p, _, hp, heq⟩
  · rw [hcase]; omega
  · have hlen : 1 ≤ sep.length := separators_nonempty sep hsep
    rw [heq]; omega

theorem chunkLoop_terminates (cfg : ChunkCfg) (text : List Char)
    (hov : cfg.overlap ≤ 1) (hlt : cfg.overlap < cfg.chunk_size) :
    ∀ fuel start acc, text.length - start < fuel →
      ∃ r, chunkLoop cfg text fuel start acc = some r := by
  intro fuel
  induction fuel with
  | zero => intro start acc h; omega
  | succ n ih =>
    intro start acc h
    by_cases hs : start < text.length
    · by_cases hstop : text.length ≤ start + cfg.chunk_size
      · exact ⟨_, by simp only [chunkLoop]; rw [if_pos hs, if_pos hstop]⟩
      · have hprog := next_start_progress cfg text start hov hlt
        obtain ⟨r, hr⟩ := ih (findSplit text start (start + cfg.chunk_size)
          separators - cfg.overlap)
          (acc ++ if ¬(pyStrip ((text.drop start).take
              (findSplit text start (start + cfg.chunk_size) separators - start))).isEmpty ∧
              50 ≤ (pyStrip ((text.drop start).take
              (findSplit text start (start + cfg.chunk_size) separators - start))).length
            then [pyStrip ((text.drop start).take
              (findSplit text start (start + cfg.chunk_size) separators - start))] else [])
          (by omega)
        exact ⟨r, by simp only [chunkLoop]; rw [if_pos hs, if_neg hstop]; exact hr⟩
    · exact ⟨acc, by simp only [chunkLoop]; rw [if_neg hs]⟩

/-- `TextChunker.chunk` terminates on `text`: some fuel bound suffices. -/
def chunkTerminates (cfg : ChunkCfg) (text : List Char) : Prop :=
  ∃ fuel r, TextChunker.chunk cfg fuel text = some r

/-- On this input the loop never moves: the right-most separator hit is the
space at index 1, so `best_split = 2` and `start = 2 - 5` clamps to 0. -/
def stallText : List Char := "a bbbbbbbbbbbb".data

theorem chunkLoop_stall :
    ∀ fuel, chunkLoop ⟨10, 5⟩ (pyStrip stallText) fuel 0 [] = none
  | 0 => rfl
  | fuel + 1 => by
    rw [show chunkLoop ⟨10, 5⟩ (pyStrip stallText) (fuel + 1) 0 [] =
      chunkLoop ⟨10, 5⟩ (pyStrip stallText) fuel 0 [] from rfl]
    exact chunkLoop_stall fuel

theorem drop_decomp (t : List Char) (s : Nat) :
    ∃ pre post, t = pre ++ t.drop s ++ post :=
  ⟨t.take s, [], by rw [List.append_nil, List.take_append_drop]⟩

/-- Every chunk the loop keeps is at least 50 characters long and is a
contiguous segment of the scanned text. -/
theorem chunk_guard_spec (text m : List Char)
    (hm : ∃ pre post, text = pre ++ m ++ post) (c : List Char)
    (hc : c ∈ if ¬(pyStrip m).isEmpty ∧ 50 ≤ (pyStrip m).length
      then [pyStrip m] else []) :
    50 ≤ c.length ∧ ∃ pre post, text = pre ++ c ++ post := by
  split at hc
  · next hP =>
    rcases List.mem_singleton.mp hc with rfl
    exact ⟨hP.2, segment_trans hm (pyStrip_decomp m)⟩
  · exact absurd hc (List.not_mem_nil c)

theorem chunkLoop_chunks_spec (cfg : ChunkCfg) (text : List Char) :
    ∀ fuel start acc r, chunkLoop cfg text fuel start acc = some r →
      (∀ c ∈ acc, 50 ≤ c.length ∧ ∃ pre post, text = pre ++ c ++ post) →
      ∀ c ∈ r, 50 ≤ c.length ∧ ∃ pre post, text = pre ++ c ++ post := by
  intro fuel
  induction fuel with
  | zero =>
    intro start acc r h
    exact absurd h (by simp [chunkLoop])
  | succ n ih =>
    intro start acc r h hacc
    by_cases hs : start < text.length
    · by_cases hstop : text.length ≤ start + cfg.chunk_size
      · simp only [chunkLoop, if_pos hs, if_pos hstop, Option.some.injEq] at h
        subst h
        intro c hc
        rcases List.mem_append.mp hc with hc | hc
        · exact hacc c hc
        · exact chunk_guard_spec text (text.drop start) (drop_decomp text start) c hc
      · simp only [chunkLoop, if_pos hs, if_neg hstop] at h
        refine ih _ _ r h ?_
        intro c hc
        rcases List.mem_append.mp hc with hc | hc
        · exact hacc c hc
        · exact chunk_guard_spec text _ (slice_decomp text start _) c hc
    · simp only [chunkLoop, if_neg hs, Option.some.injEq] at h
      subst h
      exact hacc

/-- C2 (counterexample): the claim "for every input text and every
configuration with `overlap < chunk_size` the chunking scan makes forward
progress and terminates" is false: with `chunk_size = 10`, `overlap = 5`
(so `overlap < chunk_size`) the input `"a bbbbbbbbbbbb"` makes the scan
loop forever — the space at index 1 gives `best_split = 2` and the next
start `2 - 5` clamps back to 0 on every iteration. -/
theorem claim_C2_counterexample :
    (⟨10, 5⟩ : ChunkCfg).overlap < (⟨10, 5⟩ : ChunkCfg).chunk_size ∧
    ¬ chunkTerminates ⟨10, 5⟩ stallText := by
  refine ⟨by decide, ?_⟩
  rintro ⟨fuel, r, hr⟩
  rw [show TextChunker.chunk ⟨10, 5⟩ fuel stallText =
      chunkLoop ⟨10, 5⟩ (pyStrip stallText) fuel 0 [] from rfl,
    chunkLoop_stall fuel] at hr
  exact Option.noConfusion hr

/-- C2 (amended): the chunking scan makes forward progress and terminates
whenever `overlap ≤ 1` (and `overlap < chunk_size`); for `overlap ≥ 2` a
separator occurrence just after the window start can stop the start from
advancing, so `overlap < chunk_size` alone does not guarantee
termination. -/
theorem claim_C2_amended (cfg : ChunkCfg) (text : List Char)
    (hov : cfg.overlap ≤ 1) (hlt : cfg.overlap < cfg.chunk_size) :
    chunkTerminates cfg text := by
  by_cases h0 : pyStrip text = []
  · exact ⟨1, [], by simp [TextChunker.chunk, h0]⟩
  · by_cases h1 : (pyStrip text).length ≤ cfg.chunk_size
    · exact ⟨1, [pyStrip text], by simp [TextChunker.chunk, h0, h1]⟩
    · obtain ⟨r, hr⟩ := chunkLoop_terminates cfg (pyStrip text) hov hlt
        ((pyStrip text).length + 1) 0 [] (by omega)
      exact ⟨(pyStrip text).length + 1, r,
        by simp only [TextChunker.chunk, if_neg h0, if_neg h1]; exact hr⟩

/-- Witness for `claim_C2_amended` at `chunk_size = 5`, `overlap = 1`. -/
theorem claim_C2_amended_witness :
    (⟨5, 1⟩ : ChunkCfg).overlap ≤ 1 ∧
    (⟨5, 1⟩ : ChunkCfg).overlap < (⟨5, 1⟩ : ChunkCfg).chunk_size ∧
    chunkTerminates ⟨5, 1⟩ "hello world".data :=
  ⟨by decide, by decide, claim_C2_amended ⟨5, 1⟩ "hello world".data
    (by decide) (by decide)⟩

/-- C6: for every text `t` with `len(t) ≤ chunk_size`, `chunk t` returns
exactly the one-element sequence `[trim t]` when `t` is non-blank, and the
empty sequence when `t` is empty or whitespace-only. -/
theorem claim_C6_chunk_short (cfg : ChunkCfg) (fuel : Nat) (t : List Char)
    (h : t.length ≤ cfg.chunk_size) :
    TextChunker.chunk cfg fuel t =
      some (if pyStrip t = [] then [] else [pyStrip t]) := by
  by_cases h0 : pyStrip t = []
  · simp [TextChunker.chunk, h0]
  · have hle : (pyStrip t).length ≤ cfg.chunk_size :=
      le_trans (pyStrip_length_le t) h
    simp [TextChunker.chunk, h0, hle]

/-- Witness for `claim_C6_chunk_short`: a padded short text yields its
trimmed form as the single chunk. -/
theorem claim_C6_chunk_short_witness :
    "  hi there ".data.length ≤ (⟨100, 10⟩ : ChunkCfg).chunk_size ∧
    TextChunker.chunk ⟨100, 10⟩ 7 "  hi there ".data =
      some (if pyStrip "  hi there ".data = [] then []
        else [pyStrip "  hi there ".data]) :=
  ⟨by decide, claim_C6_chunk_short ⟨100, 10⟩ 7 "  hi there ".data (by decide)⟩

/-- 70 copies of a letter, no separator anywhere. -/
def c5Text : List Char := List.replicate 70 'a'

/-- C5 (counterexample): the claim "for every text longer than `chunk_size`
chunked with `overlap < chunk_size`, concatenating all returned chunks
(ignoring overlap regions) reconstructs the original text's content" is
false: with `chunk_size = 60`, `overlap = 0` and 70 copies of `'a'`, the
returned chunks are exactly `[60 copies of 'a']` — the 10-character trailing
remainder is below the 50-character floor and is silently dropped, so the
concatenation does not reconstruct the text. -/
theorem claim_C5_counterexample :
    (⟨60, 0⟩ : ChunkCfg).overlap < (⟨60, 0⟩ : ChunkCfg).chunk_size ∧
    (⟨60, 0⟩ : ChunkCfg).chunk_size < c5Text.length ∧
    TextChunker.chunk ⟨60, 0⟩ 3 c5Text = some [List.replicate 60 'a'] ∧
    List.flatten [List.replicate 60 'a'] ≠ pyStrip c5Text := by
  exact ⟨by decide, by decide, by decide, by decide⟩

/-- C5 (amended): for every text whose trimmed form is longer than
`chunk_size`, every returned chunk — including the trailing remainder — has
length ≥ 50 characters, and every returned chunk is a contiguous segment of
the trimmed text; segments that trim below the 50-character floor
(a short trailing remainder included) are dropped rather than returned, so
concatenation reconstructs the content only up to those dropped
segments. -/
theorem claim_C5_amended (cfg : ChunkCfg) (fuel : Nat) (t : List Char)
    (r : List (List Char)) (h : TextChunker.chunk cfg fuel t = some r)
    (hlong : cfg.chunk_size < (pyStrip t).length) :
    ∀ c ∈ r, 50 ≤ c.length ∧ ∃ pre post, pyStrip t = pre ++ c ++ post := by
  by_cases h0 : pyStrip t = []
  · rw [h0] at hlong; exact absurd hlong (by simp)
  · simp only [TextChunker.chunk, if_neg h0,
      if_neg (by omega : ¬ (pyStrip t).length ≤ cfg.chunk_size)] at h
    exact chunkLoop_chunks_spec cfg (pyStrip t) fuel 0 [] r h
      (by intro c hc; exact absurd hc (List.not_mem_nil c))

/-- Witness for `claim_C5_amended` on the 70-letter input. -/
theorem claim_C5_amended_witness :
    TextChunker.chunk ⟨60, 0⟩ 3 c5Text = some [List.replicate 60 'a'] ∧
    (⟨60, 0⟩ : ChunkCfg).chunk_size < (pyStrip c5Text).length ∧
    ∀ c ∈ [List.replicate 60 'a'],
      50 ≤ c.length ∧ ∃ pre post, pyStrip c5Text = pre ++ c ++ post :=
  ⟨by decide, by decide,
    claim_C5_amended ⟨60, 0⟩ 3 c5Text [List.replicate 60 'a']
      (by decide) (by decide)⟩

/-! ### Payloads and the embedding service -/

/-- A payload value: Qdrant payloads in this code base hold strings and
numbers. -/
inductive Val : Type
  | s (v : String)
  | n (v : Int)
deriving Repr, DecidableEq

/-- A payload dictionary (all keys produced by this code base are
distinct, so an association list with first-match lookup models the
Python `dict`). -/
abbrev Payload : Type := List (String × Val)

/-- Python `payload.get(key)` / `payload[key]`. -/
def payloadGet : Payload → String → Option Val
  | [], _ => none
  | (k, v) :: rest, key => if k = key then some v else payloadGet rest key

theorem payloadGet_cons_ne (k : String) (v : Val) (rest : Payload)
    (key : String) (h : k ≠ key) :
    payloadGet ((k, v) :: rest) key = payloadGet rest key := by
  simp [payloadGet, h]

theorem payloadGet_cons_self (k : String) (v : Val) (rest : Payload) :
    payloadGet ((k, v) :: rest) k = some v := by
  simp [payloadGet]

namespace EmbeddingService

/-- `EmbeddingService.embed`: delegates all texts to the opaque encoding
capability `enc` (vector components are integers in this model). -/
def embed (enc : String → List Int) (texts : List String) : List (List Int) :=
  texts.map enc

/-- `EmbeddingService.embed_query`: prepend `"query: "` (the Python
`f"query: {query}"`), embed, take the first result. -/
def embed_query (enc : String → List Int) (query : String) : List Int :=
  (embed enc ["query: " ++ query]).headI

/-- `EmbeddingService.embed_documents`: prepend `"passage: "` to every
document (the Python `[f"passage: {doc}" for doc in documents]`). -/
def embed_documents (enc : String → List Int) (documents : List String) :
    List (List Int) :=
  embed enc (documents.map (fun doc => "passage: " ++ doc))

end EmbeddingService

/-- C7: `embed_query` prepends the exact prefix `"query: "` to the query
and `embed_documents` prepends the exact prefix `"passage: "` to every
passage before delegating to the embedding capability; no text reaches the
capability through these wrappers without its role prefix. -/
theorem claim_C7_role_prefixes (enc : String → List Int) (query : String)
    (documents : List String) :
    EmbeddingService.embed_query enc query =
      (EmbeddingService.embed enc ["query: " ++ query]).headI ∧
    ("query: " ++ query).data = "query: ".data ++ query.data ∧
    EmbeddingService.embed_documents enc documents =
      EmbeddingService.embed enc
        (documents.map (fun doc => "passage: " ++ doc)) ∧
    ∀ t ∈ documents.map (fun doc => "passage: " ++ doc),
      ∃ doc ∈ documents, t = "passage: " ++ doc ∧
        t.data = "passage: ".data ++ doc.data := by
  refine ⟨rfl, by simp, rfl, ?_⟩
  intro t ht
  rcases List.mem_map.mp ht with ⟨doc, hdoc, rfl⟩
  exact ⟨doc, hdoc, rfl, by simp⟩

/-- Witness for `claim_C7_role_prefixes` at a concrete query and passage
list (the membership clause instantiated and evaluated). -/
theorem claim_C7_role_prefixes_witness :
    EmbeddingService.embed_query (fun s => [(s.length : Int)]) "wer" = [10] ∧
    EmbeddingService.embed_documents (fun s => [(s.length : Int)])
      ["abc", "de"] = [[12], [11]] ∧
    ∃ doc ∈ ["abc", "de"], "passage: abc" = "passage: " ++ doc :=
  ⟨by decide,
   by decide,
   by
    rcases (claim_C7_role_prefixes (fun s => [(s.length : Int)]) "wer"
      ["abc", "de"]).2.2.2 "passage: abc" (by decide) with ⟨d, hd, he, -⟩
    exact ⟨d, hd, he⟩⟩

/-! ### Vector store -/

/-- One indexed point as stored in Qdrant (the point id, a `uuid4`, plays
no role in any claim and is omitted). -/
structure StoredPoint where
  vector : List Int
  payload : Payload
deriving Repr, DecidableEq

/-- Dot product; on the normalized vectors the embedder produces, cosine
similarity and dot product coincide, so this is the Qdrant `COSINE` score
of the model. -/
def dot (a b : List Int) : Int := (List.zipWith (· * ·) a b).sum

/-- Score comparison used to rank query results: `a` scores at least as
high as `b`. -/
def scoreGE (a b : Int × StoredPoint) : Prop := b.1 ≤ a.1

instance : DecidableRel scoreGE :=
  fun a b => inferInstanceAs (Decidable (b.1 ≤ a.1))

instance : IsTotal (Int × StoredPoint) scoreGE := ⟨fun a b => le_total b.1 a.1⟩

instance : IsTrans (Int × StoredPoint) scoreGE :=
  ⟨fun _ _ _ hab hbc => le_trans hbc hab⟩

/-- The Qdrant `query_points` capability: score every point eligible under
the filter, rank by descending score, return the best `limit`. -/
def queryPoints (store : List StoredPoint) (qv : List Int) (limit : Nat)
    (query_filter : Option Payload) : List (Int × StoredPoint) :=
  let eligible := match query_filter with
    | none => store
    | some f => store.filter (fun p =>
        f.all (fun kv => payloadGet p.payload kv.1 == some kv.2))
  (List.insertionSort scoreGE
    (eligible.map (fun p => (dot qv p.vector, p)))).take limit

/-- A search hit `{text, score, metadata}` as returned by
`VectorStoreService.search`. -/
structure RetrievalResult where
  text : Val
  score : Int
  metadata : Payload
deriving Repr, DecidableEq

namespace VectorStoreService

/-- `VectorStoreService.search` from `app/rag/vectorstore.py`: embed the
query (query-prefixed), build the must-conjunction filter when `filters`
is non-empty, run the similarity query and format each scored point as
`{text, score, metadata minus text}`. -/
def search (store : List StoredPoint) (enc : String → List Int)
    (query : String) (top_k : Nat) (filters : Payload) :
    List RetrievalResult :=
  let query_embedding := EmbeddingService.embed_query enc query
  let qdrant_filter : Option Payload :=
    if filters = [] then none else some filters
  let results := queryPoints store query_embedding top_k qdrant_filter
  results.map (fun sp =>
    { text := (payloadGet sp.2.payload "text").getD (Val.s "")
      score := sp.1
      metadata := sp.2.payload.filter (fun kv => kv.1 != "text") })

/-- The Qdrant `scroll` capability under a boolean filter: the first
`limit` matching points. -/
def scroll (store : List StoredPoint) (scroll_filter : StoredPoint → Bool)
    (limit : Nat) : List StoredPoint :=
  (store.filter scroll_filter).take limit

/-- The Qdrant `delete` capability: remove every point matching the
selector. -/
def qdrantDelete (store : List StoredPoint) (sel : StoredPoint → Bool) :
    List StoredPoint :=
  store.filter (fun p => !(sel p))

/-- The `document_id` equality condition used by `delete_document`. -/
def matchesDocumentId (document_id : String) (p : StoredPoint) : Bool :=
  payloadGet p.payload "document_id" == some (Val.s document_id)

/-- `VectorStoreService.delete_document`: count the matching points with
one `scroll` call of `limit=10000`, then delete all points matching the
same filter; return the count and the remaining store. -/
def delete_document (store : List StoredPoint) (document_id : String) :
    Nat × List StoredPoint :=
  let count := (scroll store (matchesDocumentId document_id) 10000).length
  (count, qdrantDelete store (matchesDocumentId document_id))

end VectorStoreService

/-- C1: `search` embeds the query with the `"query: "` prefix, applies the
filter as a conjunction of per-key equality conditions, and returns the
results in descending score order; each result is `{text, score, metadata}`
where `metadata` is the stored payload with the `"text"` key removed —
in particular no raw vector and no `"text"` key occurs in it. -/
theorem claim_C1_search_spec (store : List StoredPoint)
    (enc : String → List Int) (query : String) (top_k : Nat)
    (filters : Payload) :
    List.Sorted (fun a b : RetrievalResult => b.score ≤ a.score)
      (VectorStoreService.search store enc query top_k filters) ∧
    ∀ r ∈ VectorStoreService.search store enc query top_k filters,
      ∃ p ∈ store,
        (∀ kv ∈ filters, payloadGet p.payload kv.1 = some kv.2) ∧
        r.score = dot (enc ("query: " ++ query)) p.vector ∧
        r.text = (payloadGet p.payload "text").getD (Val.s "") ∧
        r.metadata = p.payload.filter (fun kv => kv.1 != "text") ∧
        ∀ kv ∈ r.metadata, kv.1 ≠ "text" := by
  constructor
  · refine List.Pairwise.map _ (fun a b hab => ?_)
      (List.Pairwise.sublist (List.take_sublist _ _)
        (List.sorted_insertionSort scoreGE _))
    exact hab
  · intro r hr
    rcases List.mem_map.mp hr with ⟨sp, hsp, rfl⟩
    have hsp' : sp ∈ List.insertionSort scoreGE
        ((match (if filters = [] then (none : Option Payload)
            else some filters) with
          | none => store
          | some f => store.filter (fun p : StoredPoint =>
              f.all (fun kv => payloadGet p.payload kv.1 == some kv.2))).map
          (fun p : StoredPoint => (dot (EmbeddingService.embed_query enc query)
            p.vector, p))) :=
      List.Sublist.mem hsp (List.take_sublist _ _)
    rw [List.mem_insertionSort] at hsp'
    rcases List.mem_map.mp hsp' with ⟨p, hp, rfl⟩
    by_cases hf : filters = []
    · rw [if_pos hf] at hp
      exact ⟨p, hp, by simp [hf], rfl, rfl, rfl, fun kv hkv =>
        by simpa using (List.mem_filter.mp hkv).2⟩
    · rw [if_neg hf] at hp
      rcases List.mem_filter.mp hp with ⟨hp, hall⟩
      refine ⟨p, hp, ?_, rfl, rfl, rfl, fun kv hkv =>
        by simpa using (List.mem_filter.mp hkv).2⟩
      intro kv hkv
      have := (List.all_eq_true.mp hall) kv hkv
      simpa using this

/-- Witness for `claim_C1_search_spec` on a concrete two-point store with a
`document_id` filter. -/
theorem claim_C1_search_spec_witness :
    ∃ p ∈ [(⟨[2], [("text", Val.s "t1"), ("document_id", Val.s "d")]⟩ :
        StoredPoint),
      ⟨[5], [("text", Val.s "t2"), ("document_id", Val.s "e")]⟩],
      (∀ kv ∈ [("document_id", Val.s "d")],
        payloadGet p.payload kv.1 = some kv.2) ∧
      (⟨Val.s "t1", 6, [("document_id", Val.s "d")]⟩ :
          RetrievalResult).score = dot ((fun _ => [3]) ("query: " ++ "q"))
            p.vector ∧
      (Val.s "t1" : Val) = (payloadGet p.payload "text").getD (Val.s "") ∧
      ([("document_id", Val.s "d")] : Payload) =
        p.payload.filter (fun kv => kv.1 != "text") ∧
      ∀ kv ∈ ([("document_id", Val.s "d")] : Payload), kv.1 ≠ "text" := by
  have h := (claim_C1_search_spec
    [⟨[2], [("text", Val.s "t1"), ("document_id", Val.s "d")]⟩,
     ⟨[5], [("text", Val.s "t2"), ("document_id", Val.s "e")]⟩]
    (fun _ => [3]) "q" 5 [("document_id", Val.s "d")]).2
    ⟨Val.s "t1", 6, [("document_id", Val.s "d")]⟩ (by decide)
  exact h

/-- A point carrying only a `document_id` payload, for the `delete_document`
counterexample. -/
def docPoint : StoredPoint := ⟨[], [("document_id", Val.s "d")]⟩

theorem delete_document_fst (store : List StoredPoint) (document_id : String) :
    (VectorStoreService.delete_document store document_id).1 =
      (VectorStoreService.scroll store
        (VectorStoreService.matchesDocumentId document_id) 10000).length := rfl

theorem delete_document_snd (store : List StoredPoint) (document_id : String) :
    (VectorStoreService.delete_document store document_id).2 =
      VectorStoreService.qdrantDelete store
        (VectorStoreService.matchesDocumentId document_id) := rfl

/-- C3 (counterexample): the claim "`delete_document` returns the full
pre-deletion count of matching points" is false: the count comes from a
single `scroll` call with `limit=10000`, so on a store holding 10001 points
of one document the function deletes all 10001 but reports 10000. -/
theorem claim_C3_counterexample :
    (List.filter (VectorStoreService.matchesDocumentId "d")
      (List.replicate 10001 docPoint)).length = 10001 ∧
    (VectorStoreService.delete_document (List.replicate 10001 docPoint)
      "d").1 = 10000 ∧
    (VectorStoreService.delete_document (List.replicate 10001 docPoint)
      "d").2 = [] := by
  have hmatch : VectorStoreService.matchesDocumentId "d" docPoint = true := by
    decide
  refine ⟨?_, ?_, ?_⟩
  · rw [List.filter_replicate, if_pos hmatch, List.length_replicate]
  · rw [delete_document_fst, VectorStoreService.scroll,
      List.filter_replicate, if_pos hmatch,
      List.take_replicate, List.length_replicate]
    omega
  · rw [delete_document_snd, VectorStoreService.qdrantDelete,
      List.filter_replicate]
    simp only [hmatch, Bool.not_true, Bool.false_eq_true, if_false]

/-- C3 (amended): `delete_document` counts the points whose payload
`document_id` equals the given id through a scroll capped at 10000, deletes
all points matching that same filter, and returns the pre-deletion count of
matching points capped at 10000 (the full count whenever at most 10000
points match). -/
theorem claim_C3_amended (store : List StoredPoint) (document_id : String) :
    (VectorStoreService.delete_document store document_id).1 =
      min (store.filter
        (VectorStoreService.matchesDocumentId document_id)).length 10000 ∧
    (∀ p ∈ (VectorStoreService.delete_document store document_id).2,
      VectorStoreService.matchesDocumentId document_id p = false) ∧
    (∀ p ∈ store, VectorStoreService.matchesDocumentId document_id p = false →
      p ∈ (VectorStoreService.delete_document store document_id).2) := by
  refine ⟨?_, ?_, ?_⟩
  · show (VectorStoreService.scroll store
      (VectorStoreService.matchesDocumentId document_id) 10000).length = _
    rw [VectorStoreService.scroll, List.length_take, Nat.min_comm]
  · intro p hp
    have := (List.mem_filter.mp hp).2
    simpa using this
  · intro p hp hmatch
    exact List.mem_filter.mpr ⟨hp, by simp [hmatch]⟩

/-- Witness for `claim_C3_amended` on a two-point store with one matching
point. -/
theorem claim_C3_amended_witness :
    (VectorStoreService.delete_document [docPoint,
      ⟨[], [("document_id", Val.s "e")]⟩] "d").1 =
      min (List.filter (VectorStoreService.matchesDocumentId "d")
        [docPoint, ⟨[], [("document_id", Val.s "e")]⟩]).length 10000 ∧
    (⟨[], [("document_id", Val.s "e")]⟩ : StoredPoint) ∈
      (VectorStoreService.delete_document [docPoint,
        ⟨[], [("document_id", Val.s "e")]⟩] "d").2 := by
  constructor
  · exact (claim_C3_amended [docPoint, ⟨[], [("document_id", Val.s "e")]⟩]
      "d").1
  · exact (claim_C3_amended [docPoint, ⟨[], [("document_id", Val.s "e")]⟩]
      "d").2.2 ⟨[], [("document_id", Val.s "e")]⟩ (by decide) (by decide)

/-! ### Chat route (`app/routes/chat.py`) -/

/-- One OpenAI-style chat message. -/
structure ChatMessage where
  role : String
  content : String
deriving Repr, DecidableEq

/-- The query extraction of `chat_completions`: walk the messages in
reverse, stop at the first message with role `"user"`, take its content;
`""` when no user message exists. -/
def extractUserMessage (messages : List ChatMessage) : String :=
  match messages.reverse.find? (fun m => m.role == "user") with
  | some m => m.content
  | none => ""

/-- `chat_completions` raises HTTP 400 exactly when the extracted user
message is falsy, i.e. the empty string. -/
def chatRejectsBadRequest (messages : List ChatMessage) : Bool :=
  extractUserMessage messages == ""

/-- C10: if the most recent message with role `"user"` has empty string
content, the request is rejected with BadRequest (400) even when an
earlier user message has non-empty content — the extraction stops at the
last user message and treats empty content as no user message found. -/
theorem claim_C10_empty_last_user (l1 l2 : List ChatMessage)
    (m : ChatMessage) (hrole : m.role = "user")
    (hafter : ∀ m' ∈ l2, m'.role ≠ "user") (hempty : m.content = "") :
    chatRejectsBadRequest (l1 ++ m :: l2) = true := by
  have h2 : l2.reverse.find? (fun m => m.role == "user") = none :=
    List.find?_eq_none.mpr (fun x hx => by
      simp [hafter x (List.mem_reverse.mp hx)])
  unfold chatRejectsBadRequest extractUserMessage
  rw [List.reverse_append, List.reverse_cons, List.append_assoc,
    List.find?_append, h2]
  simp [List.find?, hrole, hempty]

/-- Witness for `claim_C10_empty_last_user`: an earlier non-empty user
message does not save a request whose last user message is empty. -/
theorem claim_C10_empty_last_user_witness :
    (⟨"user", ""⟩ : ChatMessage).role = "user" ∧
    (⟨"user", ""⟩ : ChatMessage).content = "" ∧
    chatRejectsBadRequest
      [⟨"user", "hello"⟩, ⟨"assistant", "hi"⟩, ⟨"user", ""⟩] = true :=
  ⟨rfl, rfl, claim_C10_empty_last_user
    [⟨"user", "hello"⟩, ⟨"assistant", "hi"⟩] [] ⟨"user", ""⟩ rfl
    (fun m' hm' => absurd hm' (List.not_mem_nil m')) rfl⟩

/-- One source reference kept alongside a relevant retrieval result:
`{"source": ..., "page": ..., "score": ...}`. -/
structure SourceRef where
  source : Val
  page : Val
  score : Int
deriving Repr, DecidableEq

/-- The `sources` list built by `chat_completions`: one entry per search
result whose score reaches the similarity threshold, carrying
`metadata.get("source", "Unbekannt")`, `metadata.get("page", "?")` and the
score. -/
def collectSources (results : List RetrievalResult) (threshold : Int) :
    List SourceRef :=
  (results.filter (fun r => decide (threshold ≤ r.score))).map (fun r =>
    { source := (payloadGet r.metadata "source").getD (Val.s "Unbekannt")
      page := (payloadGet r.metadata "page").getD (Val.s "?")
      score := r.score })

structure LLMMessage where
  content : String
deriving Repr, DecidableEq

structure LLMChoice where
  message : LLMMessage
deriving Repr, DecidableEq

/-- An OpenAI-style chat-completion response body. -/
structure LLMResult where
  choices : List LLMChoice
deriving Repr, DecidableEq

def valToString : Val → String
  | Val.s v => v
  | Val.n v => toString v

/-- The Python `{:.0%}` formatting of a similarity score (scores are
integers in this model). -/
def formatPercent (score : Int) : String := toString (score * 100) ++ "%"

/-- The human-readable sources section appended by
`_complete_llm_response`: the `**Quellen:**` header followed by one line
per kept citation with source, page and relevance as a percentage. -/
def sourcesSection (sources : List SourceRef) : String :=
  "\n\n---\n**Quellen:**\n" ++ String.join (sources.map (fun s =>
    "- " ++ valToString s.source ++ ", Seite " ++ valToString s.page ++
    " (Relevanz: " ++ formatPercent s.score ++ ")\n"))

/-- `_complete_llm_response` from `app/routes/chat.py`: when `sources` is
non-empty and the response has a (non-empty) `choices` list, append the
sources section to the first choice's message content; otherwise return
the response unchanged. -/
def complete_llm_response (result : LLMResult) (sources : List SourceRef) :
    LLMResult :=
  if sources ≠ [] ∧ result.choices ≠ [] then
    match result.choices with
    | [] => result
    | c :: rest =>
      { choices :=
          { message :=
            { content := c.message.content ++ sourcesSection sources } } ::
          rest }
  else result

/-- C4 (counterexample): the claim "in batched mode the orchestrator
appends a Sources section to the final message content if and only if at
least one retrieval result met the similarity threshold" is false in the
left-to-right direction: with one result at score 1 against threshold 0
(so a result meets the threshold and the kept-sources list is non-empty),
a backend response whose `choices` list is empty is returned unchanged —
nothing is appended. -/
theorem claim_C4_counterexample :
    (∃ r ∈ [(⟨Val.s "t", 1, []⟩ : RetrievalResult)], (0 : Int) ≤ r.score) ∧
    collectSources [⟨Val.s "t", 1, []⟩] 0 ≠ [] ∧
    complete_llm_response ⟨[]⟩ (collectSources [⟨Val.s "t", 1, []⟩] 0) =
      ⟨[]⟩ := by
  refine ⟨⟨⟨Val.s "t", 1, []⟩, by decide, by decide⟩, by decide, ?_⟩
  rfl

/-- C4 (amended): in batched mode the Sources section (source, page and
relevance as a percentage per kept citation) is appended to the final
message content if and only if at least one retrieval result met the
similarity threshold AND the backend response carries a non-empty
`choices` list; when no result meets the threshold — or the response has
no choices — the response is returned unchanged, so the final answer
contains no appended source list. -/
theorem claim_C4_amended (results : List RetrievalResult) (threshold : Int)
    (llm : LLMResult) :
    (collectSources results threshold = [] ↔
      ∀ r ∈ results, r.score < threshold) ∧
    (∀ c rest, llm.choices = c :: rest →
      collectSources results threshold ≠ [] →
      complete_llm_response llm (collectSources results threshold) =
        { choices :=
            { message := { content := c.message.content ++
                sourcesSection (collectSources results threshold) } } ::
            rest }) ∧
    ((∀ r ∈ results, r.score < threshold) →
      complete_llm_response llm (collectSources results threshold) = llm) ∧
    (llm.choices = [] →
      complete_llm_response llm (collectSources results threshold) = llm) := by
  have hiff : collectSources results threshold = [] ↔
      ∀ r ∈ results, r.score < threshold := by
    unfold collectSources
    rw [List.map_eq_nil_iff, List.filter_eq_nil_iff]
    constructor
    · intro h r hr
      have := h r hr
      simp only [decide_eq_true_eq] at this
      omega
    · intro h r hr
      simp only [decide_eq_true_eq]
      have := h r hr
      omega
  refine ⟨hiff, ?_, ?_, ?_⟩
  · intro c rest hch hne
    unfold complete_llm_response
    rw [if_pos ⟨hne, by rw [hch]; exact List.cons_ne_nil c rest⟩, hch]
  · intro hall
    unfold complete_llm_response
    rw [if_neg]
    intro hcontra
    exact hcontra.1 (hiff.mpr hall)
  · intro hch
    unfold complete_llm_response
    rw [if_neg]
    intro hcontra
    exact hcontra.2 hch

/-- Witness for `claim_C4_amended`: one result above and one below the
threshold against a one-choice backend response. -/
theorem claim_C4_amended_witness :
    (⟨[⟨⟨"Antwort"⟩⟩]⟩ : LLMResult).choices = [⟨⟨"Antwort"⟩⟩] ∧
    collectSources [(⟨Val.s "t1", 9, [("source", Val.s "a.pdf"),
        ("page", Val.n 3)]⟩ : RetrievalResult),
      ⟨Val.s "t2", 2, []⟩] 5 ≠ [] ∧
    complete_llm_response ⟨[⟨⟨"Antwort"⟩⟩]⟩
      (collectSources [⟨Val.s "t1", 9, [("source", Val.s "a.pdf"),
        ("page", Val.n 3)]⟩, ⟨Val.s "t2", 2, []⟩] 5) =
      { choices := [⟨⟨"Antwort" ++ sourcesSection (collectSources
          [⟨Val.s "t1", 9, [("source", Val.s "a.pdf"), ("page", Val.n 3)]⟩,
           ⟨Val.s "t2", 2, []⟩] 5)⟩⟩] } := by
  refine ⟨rfl, by decide, ?_⟩
  exact (claim_C4_amended [⟨Val.s "t1", 9, [("source", Val.s "a.pdf"),
      ("page", Val.n 3)]⟩, ⟨Val.s "t2", 2, []⟩] 5 ⟨[⟨⟨"Antwort"⟩⟩]⟩).2.1
    ⟨⟨"Antwort"⟩⟩ [] rfl (by decide)

/-! ### Ingestion (`VectorStoreService.add_text` / `add_transcript` and
`app/routes/documents.py` `upload_document`) -/

namespace VectorStoreService

/-- `VectorStoreService.add_text`: chunk the text, embed all chunks as
passages, store one point per chunk whose payload is the chunk text under
`"text"` merged with the caller's metadata (no caller in this repository
passes a `"text"` key in `metadata`); returns the number of chunks
indexed, 0 if chunking produced nothing. `none` models a chunking call
that never returns within `fuel`. -/
def add_text (cfg : ChunkCfg) (fuel : Nat) (enc : String → List Int)
    (store : List StoredPoint) (text : List Char) (metadata : Payload) :
    Option (List StoredPoint × Nat) :=
  match TextChunker.chunk cfg fuel text with
  | none => none
  | some chunks =>
    if chunks.isEmpty then some (store, 0)
    else
      let texts := chunks.map (fun c => String.mk c)
      let embeddings := EmbeddingService.embed_documents enc texts
      let points := (texts.zip embeddings).map (fun te =>
        ({ vector := te.2, payload := ("text", Val.s te.1) :: metadata } :
          StoredPoint))
      some (store ++ points, points.length)

/-- `VectorStoreService.add_transcript`: wrap the transcript metadata
envelope (source, `document_type="transcript"`, patient id, duration, a
fresh `document_id`, `page=0`) and delegate to `add_text`. -/
def add_transcript (cfg : ChunkCfg) (fuel : Nat) (enc : String → List Int)
    (store : List StoredPoint) (transcript_text : List Char)
    (filename : String) (duration : Int) (patient_id : String)
    (docId : String) : Option (List StoredPoint × Nat) :=
  add_text cfg fuel enc store transcript_text
    [("source", Val.s filename), ("document_type", Val.s "transcript"),
     ("patient_id", Val.s patient_id), ("duration", Val.n duration),
     ("document_id", Val.s docId), ("page", Val.n 0)]

end VectorStoreService

/-- The OCR collaborator's response: extracted markdown, page-segmented
text and total page count. -/
structure OcrResult where
  markdown : List Char
  pages : List (Int × List Char)
  total_pages : Int
deriving Repr, DecidableEq

/-- The document-level metadata dictionary built once per upload in
`upload_document`. -/
def uploadMetadata (filename docId document_type : String)
    (patient_id case_number : Option String) (total_pages : Int) : Payload :=
  [("source", Val.s filename), ("document_id", Val.s docId),
   ("document_type", Val.s document_type),
   ("patient_id", Val.s (patient_id.getD "")),
   ("case_number", Val.s (case_number.getD "")),
   ("total_pages", Val.n total_pages)]

/-- The per-page loop of `upload_document`: pages with whitespace-only
text are skipped, every other page is indexed by its own `add_text` call
with the shared metadata plus that page's number; the per-call chunk
counts accumulate. -/
def indexPages (cfg : ChunkCfg) (fuel : Nat) (enc : String → List Int)
    (docMeta : Payload) :
    List (Int × List Char) → List StoredPoint →
      Option (List StoredPoint × Nat)
  | [], store => some (store, 0)
  | (page_num, page_text) :: rest, store =>
    if pyStrip page_text = [] then indexPages cfg fuel enc docMeta rest store
    else
      match VectorStoreService.add_text cfg fuel enc store page_text
        (docMeta ++ [("page", Val.n page_num)]) with
      | none => none
      | some (store', count) =>
        (indexPages cfg fuel enc docMeta rest store').map
          (fun sc => (sc.1, count + sc.2))

/-- `upload_document` from `app/routes/documents.py`, the part following a
successful OCR call: reject with HTTP 422 when the extracted markdown is
whitespace-only; otherwise index page-wise when page segmentation exists,
falling back to indexing the whole markdown as page 0; return the new
store and the number of chunks indexed.  The outer `Option` is fuel
exhaustion of the chunker; `Except.error` carries the HTTP status. -/
def upload_document (cfg : ChunkCfg) (fuel : Nat) (enc : String → List Int)
    (store : List StoredPoint) (ocr : OcrResult) (filename : String)
    (document_type : String) (patient_id case_number : Option String)
    (docId : String) : Option (List StoredPoint × Except Nat Nat) :=
  if pyStrip ocr.markdown = [] then some (store, Except.error 422)
  else
    match (if ocr.pages.isEmpty then
        VectorStoreService.add_text cfg fuel enc store ocr.markdown
          (uploadMetadata filename docId document_type patient_id
            case_number ocr.total_pages ++ [("page", Val.n 0)])
      else indexPages cfg fuel enc
        (uploadMetadata filename docId document_type patient_id
          case_number ocr.total_pages) ocr.pages store) with
    | none => none
    | some (store', chunks_indexed) =>
      some (store', Except.ok chunks_indexed)

/-- C9: when OCR returns whitespace-only extracted text, the ingestion
pipeline fails with UnprocessableContent (HTTP 422) and indexes nothing —
the store is unchanged — rather than returning an empty success. -/
theorem claim_C9_empty_ocr_is_422 (cfg : ChunkCfg) (fuel : Nat)
    (enc : String → List Int) (store : List StoredPoint) (ocr : OcrResult)
    (filename document_type : String) (patient_id case_number : Option String)
    (docId : String) (h : pyStrip ocr.markdown = []) :
    upload_document cfg fuel enc store ocr filename document_type
      patient_id case_number docId = some (store, Except.error 422) := by
  unfold upload_document
  rw [if_pos h]

/-- Witness for `claim_C9_empty_ocr_is_422` on a whitespace-only OCR
markdown. -/
theorem claim_C9_empty_ocr_is_422_witness :
    pyStrip " \n\t ".data = [] ∧
    upload_document ⟨512, 64⟩ 9 (fun _ => [1]) []
      ⟨" \n\t ".data, [(1, "page one".data)], 3⟩ "doc.pdf" "gerichtsakte"
      none none "id-1" = some ([], Except.error 422) :=
  ⟨by decide, claim_C9_empty_ocr_is_422 ⟨512, 64⟩ 9 (fun _ => [1]) []
    ⟨" \n\t ".data, [(1, "page one".data)], 3⟩ "doc.pdf" "gerichtsakte"
    none none "id-1" (by decide)⟩

/-! ### The document-metadata invariant (C8) -/

theorem payloadGet_append (a b : Payload) (key : String) :
    payloadGet (a ++ b) key =
      match payloadGet a key with
      | some v => some v
      | none => payloadGet b key := by
  induction a with
  | nil => rfl
  | cons kv rest ih =>
    obtain ⟨k, v⟩ := kv
    by_cases h : k = key
    · simp [payloadGet, h]
    · simp [payloadGet, h, ih]

/-- Two points of one upload agree on every payload key other than
`"text"` and `"page"`. -/
theorem uploadPayload_get_stable (docMeta : Payload) (c₁ c₂ : String)
    (pg₁ pg₂ : Int) (key : String) (h1 : key ≠ "text") (h2 : key ≠ "page") :
    payloadGet (("text", Val.s c₁) ::
        (docMeta ++ [("page", Val.n pg₁)])) key =
      payloadGet (("text", Val.s c₂) ::
        (docMeta ++ [("page", Val.n pg₂)])) key := by
  rw [payloadGet_cons_ne _ _ _ _ (Ne.symm h1),
    payloadGet_cons_ne _ _ _ _ (Ne.symm h1),
    payloadGet_append, payloadGet_append]
  cases payloadGet docMeta key with
  | some v => rfl
  | none =>
    rw [payloadGet_cons_ne _ _ _ _ (Ne.symm h2),
      payloadGet_cons_ne _ _ _ _ (Ne.symm h2)]

/-- The `document_id` of a point of an upload batch. -/
theorem uploadPayload_docId (docMeta : Payload) (c : String) (pg : Int)
    (d : String)
    (hd : payloadGet docMeta "document_id" = some (Val.s d)) :
    payloadGet (("text", Val.s c) :: (docMeta ++ [("page", Val.n pg)]))
      "document_id" = some (Val.s d) := by
  rw [payloadGet_cons_ne _ _ _ _ (by decide), payloadGet_append, hd]

theorem uploadMetadata_docId (filename docId document_type : String)
    (patient_id case_number : Option String) (total_pages : Int) :
    payloadGet (uploadMetadata filename docId document_type patient_id
      case_number total_pages) "document_id" = some (Val.s docId) := rfl

/-- The transcript metadata envelope of `add_transcript`. -/
def transcriptMetadata (filename : String) (duration : Int)
    (patient_id docId : String) : Payload :=
  [("source", Val.s filename), ("document_type", Val.s "transcript"),
   ("patient_id", Val.s patient_id), ("duration", Val.n duration),
   ("document_id", Val.s docId), ("page", Val.n 0)]

theorem transcriptPayload_docId (filename : String) (duration : Int)
    (patient_id docId c : String) :
    payloadGet (("text", Val.s c) ::
      transcriptMetadata filename duration patient_id docId)
      "document_id" = some (Val.s docId) := rfl

/-- Every point `add_text` stores carries the chunk text under `"text"`
followed by the caller's metadata, and the store only grows. -/
theorem add_text_spec (cfg : ChunkCfg) (fuel : Nat) (enc : String → List Int)
    (store : List StoredPoint) (text : List Char) (metadata : Payload)
    (store' : List StoredPoint) (n : Nat)
    (h : VectorStoreService.add_text cfg fuel enc store text metadata =
      some (store', n)) :
    ∃ added, store' = store ++ added ∧
      ∀ p ∈ added, ∃ c, p.payload = ("text", Val.s c) :: metadata := by
  unfold VectorStoreService.add_text at h
  split at h
  · exact absurd h (by simp)
  · split at h
    · simp only [Option.some.injEq, Prod.mk.injEq] at h
      exact ⟨[], by rw [← h.1, List.append_nil], by simp⟩
    · simp only [Option.some.injEq, Prod.mk.injEq] at h
      refine ⟨_, h.1.symm, ?_⟩
      intro p hp
      rcases List.mem_map.mp hp with ⟨te, _, rfl⟩
      exact ⟨te.1, rfl⟩

/-- Every point the per-page loop stores carries the shared document
metadata followed by its own page number. -/
theorem indexPages_spec (cfg : ChunkCfg) (fuel : Nat)
    (enc : String → List Int) (docMeta : Payload) :
    ∀ pages store store' n,
      indexPages cfg fuel enc docMeta pages store = some (store', n) →
      ∃ added, store' = store ++ added ∧
        ∀ p ∈ added, ∃ c pg, p.payload =
          ("text", Val.s c) :: (docMeta ++ [("page", Val.n pg)]) := by
  intro pages
  induction pages with
  | nil =>
    intro store store' n h
    simp only [indexPages, Option.some.injEq, Prod.mk.injEq] at h
    exact ⟨[], by rw [← h.1, List.append_nil], by simp⟩
  | cons page rest ih =>
    intro store store' n h
    obtain ⟨page_num, page_text⟩ := page
    simp only [indexPages] at h
    split at h
    · exact ih store store' n h
    · split at h
      · exact absurd h (by simp)
      · next store₁ count hat =>
        cases hrec : indexPages cfg fuel enc docMeta rest store₁ with
        | none => rw [hrec] at h; exact absurd h (by simp)
        | some sc₂ =>
          obtain ⟨store₂, n₂⟩ := sc₂
          rw [hrec] at h
          simp only [Option.map_some', Option.some.injEq,
            Prod.mk.injEq] at h
          obtain ⟨h1, -⟩ := h
          obtain ⟨added₁, ha1, hp1⟩ := add_text_spec cfg fuel enc store
            page_text (docMeta ++ [("page", Val.n page_num)]) store₁
            count hat
          obtain ⟨added₂, ha2, hp2⟩ := ih store₁ store₂ n₂ hrec
          refine ⟨added₁ ++ added₂, ?_, ?_⟩
          · rw [← h1, ha2, ha1, List.append_assoc]
          · intro p hp
            rcases List.mem_append.mp hp with hp | hp
            · obtain ⟨c, hc⟩ := hp1 p hp
              exact ⟨c, page_num, hc⟩
            · exact hp2 p hp

/-- Every point a successful `upload_document` stores carries the shared
document metadata (source, document id, type, patient id, case number,
total pages) followed by its page number; the store only grows. -/
theorem upload_document_spec (cfg : ChunkCfg) (fuel : Nat)
    (enc : String → List Int) (store : List StoredPoint) (ocr : OcrResult)
    (filename document_type : String)
    (patient_id case_number : Option String) (docId : String)
    (store' : List StoredPoint) (n : Nat)
    (h : upload_document cfg fuel enc store ocr filename document_type
      patient_id case_number docId = some (store', Except.ok n)) :
    ∃ added, store' = store ++ added ∧
      ∀ p ∈ added, ∃ c pg, p.payload = ("text", Val.s c) ::
        (uploadMetadata filename docId document_type patient_id case_number
          ocr.total_pages ++ [("page", Val.n pg)]) := by
  unfold upload_document at h
  by_cases hmd : pyStrip ocr.markdown = []
  · rw [if_pos hmd] at h
    simp at h
  · rw [if_neg hmd] at h
    split at h
    · exact absurd h (by simp)
    · next store₁ count heq =>
      simp only [Option.some.injEq, Prod.mk.injEq, Except.ok.injEq] at h
      by_cases hpg : ocr.pages.isEmpty
      · -- page segmentation absent: one fallback `add_text` call at page 0
        rw [if_pos hpg] at heq
        obtain ⟨added, ha, hp⟩ := add_text_spec cfg fuel enc store
          ocr.markdown _ store₁ count heq
        refine ⟨added, h.1 ▸ ha, ?_⟩
        intro p hpm
        obtain ⟨c, hc⟩ := hp p hpm
        exact ⟨c, 0, hc⟩
      · -- page segmentation present: the per-page loop
        rw [if_neg hpg] at heq
        obtain ⟨added, ha, hp⟩ := indexPages_spec cfg fuel enc _
          ocr.pages store store₁ count heq
        exact ⟨added, h.1 ▸ ha, hp⟩

/-- The states reachable through the public ingestion operations:
document upload (`POST /api/documents/upload`) and transcript indexing
(`add_transcript`), each with the freshly generated (hence unused)
`document_id` the code draws from `uuid4`. -/
inductive Reachable (cfg : ChunkCfg) : List StoredPoint → Prop
  | init : Reachable cfg []
  | upload (store store' : List StoredPoint) (fuel : Nat)
      (enc : String → List Int) (ocr : OcrResult)
      (filename document_type : String)
      (patient_id case_number : Option String) (docId : String) (n : Nat)
      (hfresh : ∀ p ∈ store,
        payloadGet p.payload "document_id" ≠ some (Val.s docId))
      (hprev : Reachable cfg store)
      (hstep : upload_document cfg fuel enc store ocr filename
        document_type patient_id case_number docId =
        some (store', Except.ok n)) : Reachable cfg store'
  | transcript (store store' : List StoredPoint) (fuel : Nat)
      (enc : String → List Int) (transcript_text : List Char)
      (filename : String) (duration : Int) (patient_id docId : String)
      (n : Nat)
      (hfresh : ∀ p ∈ store,
        payloadGet p.payload "document_id" ≠ some (Val.s docId))
      (hprev : Reachable cfg store)
      (hstep : VectorStoreService.add_transcript cfg fuel enc store
        transcript_text filename duration patient_id docId =
        some (store', n)) : Reachable cfg store'

/-- All points sharing one `document_id` agree on every payload key other
than `"text"` and `"page"` — in particular on source, document type,
patient id, case number and total page count. -/
def docFieldsConsistent (store : List StoredPoint) : Prop :=
  ∀ p ∈ store, ∀ q ∈ store,
    payloadGet p.payload "document_id" = payloadGet q.payload "document_id" →
    ∀ key, key ≠ "text" → key ≠ "page" →
      payloadGet p.payload key = payloadGet q.payload key

/-- C8: in every state reachable through the public ingestion operations
(document upload and transcript indexing), all indexed points sharing one
`document_id` carry identical document-level metadata — every payload key
other than `"text"` and `"page"` looks up the same value in all of them,
in particular source, document_type, patient_id, case_number and the
total page count; only page and text vary among the points of one
document. -/
theorem claim_C8_metadata_invariant (cfg : ChunkCfg)
    (store : List StoredPoint) (h : Reachable cfg store) :
    docFieldsConsistent store := by
  induction h with
  | init => intro p hp; exact absurd hp (List.not_mem_nil p)
  | upload store store' fuel enc ocr filename document_type patient_id
      case_number docId n hfresh hprev hstep ih =>
    obtain ⟨added, rfl, hshape⟩ := upload_document_spec cfg fuel enc store
      ocr filename document_type patient_id case_number docId store' n hstep
    intro p hp q hq hdoc key h1 h2
    rcases List.mem_append.mp hp with hp' | hp' <;>
      rcases List.mem_append.mp hq with hq' | hq'
    · exact ih p hp' q hq' hdoc key h1 h2
    · -- `p` pre-existing, `q` freshly uploaded: impossible, the upload's
      -- `document_id` is fresh
      obtain ⟨c, pg, hpay⟩ := hshape q hq'
      refine absurd (hdoc.trans ?_) (hfresh p hp')
      rw [hpay]
      exact uploadPayload_docId _ c pg docId (uploadMetadata_docId
        filename docId document_type patient_id case_number ocr.total_pages)
    · obtain ⟨c, pg, hpay⟩ := hshape p hp'
      refine absurd (hdoc.symm.trans ?_) (hfresh q hq')
      rw [hpay]
      exact uploadPayload_docId _ c pg docId (uploadMetadata_docId
        filename docId document_type patient_id case_number ocr.total_pages)
    · obtain ⟨c₁, pg₁, hpay₁⟩ := hshape p hp'
      obtain ⟨c₂, pg₂, hpay₂⟩ := hshape q hq'
      rw [hpay₁, hpay₂]
      exact uploadPayload_get_stable _ c₁ c₂ pg₁ pg₂ key h1 h2
  | transcript store store' fuel enc transcript_text filename duration
      patient_id docId n hfresh hprev hstep ih =>
    obtain ⟨added, rfl, hshape⟩ := add_text_spec cfg fuel enc store
      transcript_text (transcriptMetadata filename duration patient_id docId)
      store' n hstep
    intro p hp q hq hdoc key h1 h2
    rcases List.mem_append.mp hp with hp' | hp' <;>
      rcases List.mem_append.mp hq with hq' | hq'
    · exact ih p hp' q hq' hdoc key h1 h2
    · obtain ⟨c, hpay⟩ := hshape q hq'
      refine absurd (hdoc.trans ?_) (hfresh p hp')
      rw [hpay]
      exact transcriptPayload_docId filename duration patient_id docId c
    · obtain ⟨c, hpay⟩ := hshape p hp'
      refine absurd (hdoc.symm.trans ?_) (hfresh q hq')
      rw [hpay]
      exact transcriptPayload_docId filename duration patient_id docId c
    · obtain ⟨c₁, hpay₁⟩ := hshape p hp'
      obtain ⟨c₂, hpay₂⟩ := hshape q hq'
      rw [hpay₁, hpay₂, payloadGet_cons_ne _ _ _ _ (Ne.symm h1),
        payloadGet_cons_ne _ _ _ _ (Ne.symm h1)]

/-- Witness for `claim_C8_metadata_invariant`: the store after indexing one
transcript. -/
theorem claim_C8_metadata_invariant_witness :
    docFieldsConsistent [⟨[0], ("text", Val.s "Kurzbericht") ::
      transcriptMetadata "a.wav" 7 "p1" "d1"⟩] :=
  claim_C8_metadata_invariant ⟨100, 10⟩ _
    (Reachable.transcript [] _ 3 (fun _ => [0]) "Kurzbericht".data "a.wav"
      7 "p1" "d1" 1 (fun p hp => absurd hp (List.not_mem_nil p))
      Reachable.init (by decide))

end KIChat
